import Mathlib

/-!
Verification development for the timeline-events sync worker
(Cloudflare Worker + D1 + R2: Facebook feed → event store → Webflow).

The TypeScript source is shallowly embedded: each worker function is
translated into an executable Lean definition over explicit state.
JavaScript strings are modelled as Lean `String` (`List Char` data);
JS `undefined`/`null` string values are `Option String`, and the JS
truthiness test `!x` on a string is `x = ""` (on an optional string,
`x` missing or `""`).  D1 tables are lists of row records, the R2
bucket is the list of stored object keys, SQLite AUTOINCREMENT ids and
`crypto.randomUUID()` are modelled by counters threaded through the
store, and each `new Date().toISOString()` inside one call is modelled
by a single `now : String` parameter.  Network I/O (photo downloads,
the feed HTTP call) is modelled on its success path unless a claim is
specifically about the failure path.
-/

namespace TimelineSync

/-! ## JavaScript string primitives -/

/-- JS regex `\s` / `String.prototype.trim` whitespace (the ASCII part
plus NBSP; the exotic Unicode space classes are not produced by any
input in this system). -/
def isJsWhitespace (c : Char) : Bool :=
  c == ' ' || c == '\t' || c == '\n' || c == '\r' || c == '\x0b' || c == '\x0c' || c == '\u00A0'

/-- `String.prototype.trim()`. -/
def jsTrim (s : String) : String :=
  String.mk (((s.data.dropWhile isJsWhitespace).reverse.dropWhile isJsWhitespace).reverse)

/-- JS `a || b` for strings: `a` unless `a` is empty (falsy). -/
def jsOrStr (a b : String) : String := if a == "" then b else a

/-- JS `a || b` where `a`, `b` are possibly-undefined strings. -/
def jsOrOptStr (a b : Option String) : Option String :=
  if (a.getD "") == "" then b else a

/-- JS `x || null`: collapse an undefined or empty string to `null`. -/
def toNullable (a : Option String) : Option String :=
  if (a.getD "") == "" then none else a

/-- Truthiness of a possibly-undefined JS string: `false` when missing or empty. -/
def truthyStr (o : Option String) : Bool := !((o.getD "") == "")

/-- Falsiness test `!x` on a possibly-undefined JS string. -/
def jsFalsy (o : Option String) : Bool := (o.getD "") == ""

/-- Helper for `split(/\r?\n/)`: drop the `\r` that preceded a `\n`
(the accumulator holds the current segment reversed). -/
def stripCr : List Char → List Char
  | '\r' :: t => t
  | l => l

/-- `String.prototype.split(/\r?\n/)` on the character list, with an
accumulator holding the current segment in reverse. -/
def splitNewlinesAux : List Char → List Char → List (List Char)
  | [], acc => [acc.reverse]
  | c :: rest, acc =>
    if c == '\n' then (stripCr acc).reverse :: splitNewlinesAux rest []
    else splitNewlinesAux rest (c :: acc)

def splitNewlines (cs : List Char) : List (List Char) := splitNewlinesAux cs []

/-- `String.prototype.includes` on character lists: `startsWithChars l n`
is JS `l.startsWith(n)`. -/
def startsWithChars : List Char → List Char → Bool
  | _, [] => true
  | [], _ :: _ => false
  | a :: as, b :: bs => a == b && startsWithChars as bs

def listHasInfix : List Char → List Char → Bool
  | [], needle => needle.isEmpty
  | l@(_ :: rest), needle => startsWithChars l needle || listHasInfix rest needle

/-- `haystack.includes(needle)`. -/
def jsIncludes (haystack needle : String) : Bool := listHasInfix haystack.data needle.data

/-! ## `truncate` and `splitMessage` (worker.ts) -/

/-- `truncate(value, max)`: identity when within `max`, else the first
`max - 1` UTF-16 units (characters, for the BMP text this system
handles) followed by a single-character ellipsis. -/
def truncate (value : String) (max : Nat) : String :=
  if value.length ≤ max then value else String.mk (value.data.take (max - 1)) ++ "…"

structure SplitResult where
  line1 : String
  line2 : Option String
  deriving Repr, DecidableEq

/-- `splitMessage(message)`: headline split into line1/line2. -/
def splitMessage (message : String) : SplitResult :=
  if message == "" then ⟨"Memory", none⟩
  else
    let parts := splitNewlines (jsTrim message).data
    let first := String.mk (parts.headD [])
    let rest := parts.drop 1
    let line1 := jsOrStr (jsTrim first) "Memory"
    let line2joined := jsTrim (String.mk (List.intercalate [' '] rest))
    let line2 : Option String := if line2joined == "" then none else some line2joined
    ⟨truncate line1 120, line2.map (truncate · 180)⟩

/-! ## `normalizeSourceUrl` (worker.ts)

`new URL(url)` is a platform builtin; it is modelled by the part of the
WHATWG parser this function depends on: an input parses iff it starts
with a scheme (`ALPHA *(ALPHA / DIGIT / "+" / "-" / ".") ":"`), and the
serialization splits at the first `?` or `#` into base, query and
fragment.  `u.search = ""; u.hash = ""; u.toString()` is then the base
alone. -/

def noQueryHash (c : Char) : Bool := !(c == '?' || c == '#')

def schemeRestOk : List Char → Bool
  | [] => false
  | c :: cs =>
    if c == ':' then true
    else (c.isAlpha || c.isDigit || c == '+' || c == '-' || c == '.') && schemeRestOk cs

def schemeOk : List Char → Bool
  | [] => false
  | c :: cs => c.isAlpha && schemeRestOk cs

structure URLParts where
  base : String
  search : String
  hash : String
  deriving Repr, DecidableEq

def URLParts.serialize (u : URLParts) : String := u.base ++ u.search ++ u.hash

/-- The modelled `new URL(s)`: `none` is the thrown `TypeError` branch. -/
def parseURL (s : String) : Option URLParts :=
  if schemeOk s.data then
    let base := s.data.takeWhile noQueryHash
    let rest := s.data.dropWhile noQueryHash
    let search := if rest.headD ' ' == '?' then rest.takeWhile (fun c => !(c == '#')) else []
    let hash := rest.dropWhile (fun c => !(c == '#'))
    some ⟨String.mk base, String.mk search, String.mk hash⟩
  else none

/-- `normalizeSourceUrl(url)`: strip query string and fragment, return
the input unchanged when it does not parse as a URL. -/
def normalizeSourceUrl (url : String) : String :=
  match parseURL url with
  | some u => URLParts.serialize { u with search := "", hash := "" }
  | none => url

/-! ## Facebook data (worker.ts types)

`attachments?.data` and `subattachments?.data` are flattened to one
optional list (an absent `data` and an absent wrapper object behave
identically at every use site), and `media?.image?.src` to one optional
string. -/

inductive FacebookAttachment : Type where
  | mk (description title type media_type media_image_src : Option String)
       (subattachments : List FacebookAttachment)

namespace FacebookAttachment

def description : FacebookAttachment → Option String | mk d _ _ _ _ _ => d
def title : FacebookAttachment → Option String | mk _ t _ _ _ _ => t
def type : FacebookAttachment → Option String | mk _ _ ty _ _ _ => ty
def media_type : FacebookAttachment → Option String | mk _ _ _ m _ _ => m
def media_image_src : FacebookAttachment → Option String | mk _ _ _ _ s _ => s
def subattachments : FacebookAttachment → List FacebookAttachment | mk _ _ _ _ _ su => su

end FacebookAttachment

structure FacebookPost where
  id : Option String := none
  message : Option String := none
  story : Option String := none
  created_time : Option String := none
  backdated_time : Option String := none
  status_type : Option String := none
  full_picture : Option String := none
  /-- `post.from?.name` -/
  from_name : Option String := none
  /-- `post.place?.name` -/
  place_name : Option String := none
  /-- `post.attachments?.data` -/
  attachments : Option (List FacebookAttachment) := none

structure AuthorProfile where
  name : Option String
  photo : Option String
  location : Option String

structure ParsedMessage where
  title : Option String
  description : Option String
  eventDate : Option String
  eventType : Option String
  deriving Repr, DecidableEq

/-! ## Attachment walks (worker.ts) -/

mutual

/-- The recursive `walk` of `extractPhotoUrls` at one node: push
`media.image.src` when truthy, then descend into non-empty
`subattachments`, preserving visitation order. -/
def walkPhotoUrlsNode : FacebookAttachment → List String
  | FacebookAttachment.mk _ _ _ _ src subs =>
    (if (src.getD "") == "" then [] else [src.getD ""]) ++
    (if subs.length != 0 then walkPhotoUrls subs else [])

def walkPhotoUrls : List FacebookAttachment → List String
  | [] => []
  | a :: rest => walkPhotoUrlsNode a ++ walkPhotoUrls rest

end

def extractPhotoUrls (attachments : Option (List FacebookAttachment)) : List String :=
  match attachments with
  | none => []
  | some data => walkPhotoUrls data

mutual

/-- Body of `extractAttachmentText` at one attachment: first truthy
`description || title`, descending depth-first into subattachments and
continuing with the next attachment when a subtree yields nothing. -/
def attachmentTextNode : FacebookAttachment → Option String
  | FacebookAttachment.mk d t _ _ _ subs =>
    let text := jsOrStr (d.getD "") (t.getD "")
    if text != "" then some text
    else if subs.length != 0 then attachmentTextLoop subs
    else none

def attachmentTextLoop : List FacebookAttachment → Option String
  | [] => none
  | a :: rest =>
    match attachmentTextNode a with
    | some nested => some nested
    | none => attachmentTextLoop rest

end

def extractAttachmentText (attachments : Option (List FacebookAttachment)) : Option String :=
  match attachments with
  | none => none
  | some [] => none
  | some data => attachmentTextLoop data

def getPrimaryAttachment (attachments : Option (List FacebookAttachment)) :
    Option FacebookAttachment :=
  match attachments with
  | none => none
  | some [] => none
  | some data =>
    match data.find? (fun a =>
        a.type == some "life_event" || a.media_type == some "life_event") with
    | some life => some life
    | none => data.head?

def hasLifeEventAttachment (post : FacebookPost) : Bool :=
  (match post.attachments with
   | some data => data.any (fun a =>
       a.type == some "life_event" || a.media_type == some "life_event")
   | none => false) ||
  post.status_type == some "created_event" ||
  (match post.attachments with
   | some data => data.any (fun att => att.subattachments.any (fun s =>
       s.type == some "life_event" || s.media_type == some "life_event"))
   | none => false)

/-! ## The label regexes of `parseStructuredMessage`

All four patterns have the shape
`word (\s* word)* \s* [:\-] \s* capture` with the `i` flag, where the
capture is `(.+)` (greedy, stops at a newline) or `([\s\S]+)` (greedy,
to the end).  Because every literal character in the patterns is
non-whitespace, the greedy `\s*` between words never backtracks; before
the capture it backtracks at most one character (when everything after
the label is whitespace). -/

def lowerEq (a b : Char) : Bool := a.toLower == b.toLower

/-- Match one literal pattern word case-insensitively, returning the rest. -/
def matchWord : List Char → List Char → Option (List Char)
  | [], cs => some cs
  | _ :: _, [] => none
  | w :: ws, c :: cs => if lowerEq w c then matchWord ws cs else none

def skipJsWs (cs : List Char) : List Char := cs.dropWhile isJsWhitespace

/-- Match the pattern words separated (and followed) by `\s*`. -/
def matchWords : List (List Char) → List Char → Option (List Char)
  | [], cs => some cs
  | w :: ws, cs =>
    match matchWord w cs with
    | none => none
    | some rest => matchWords ws (skipJsWs rest)

/-- Characters the JS `.` does not match. -/
def isRegexNewline (c : Char) : Bool :=
  c == '\n' || c == '\r' || c == '\u2028' || c == '\u2029'

/-- `\s*(.+)` with greedy matching and minimal backtracking. -/
def captureDotPlus (cs : List Char) : Option (List Char) :=
  let ws := cs.takeWhile isJsWhitespace
  let k := cs.dropWhile isJsWhitespace
  match k with
  | c :: _ =>
    if isRegexNewline c then
      (ws.reverse.find? (fun w => !(isRegexNewline w))).map (fun w => [w])
    else some (k.takeWhile (fun c2 => !(isRegexNewline c2)))
  | [] => (ws.reverse.find? (fun w => !(isRegexNewline w))).map (fun w => [w])

/-- `\s*([\s\S]+)` with greedy matching and minimal backtracking. -/
def captureAllPlus (cs : List Char) : Option (List Char) :=
  let ws := cs.takeWhile isJsWhitespace
  let k := cs.dropWhile isJsWhitespace
  match k with
  | _ :: _ => some k
  | [] => ws.getLast?.map (fun w => [w])

/-- Attempt the whole pattern at the current position. -/
def tryLabelAt (words : List (List Char)) (multiline : Bool) (cs : List Char) :
    Option (List Char) :=
  match matchWords words cs with
  | none => none
  | some r =>
    match r with
    | [] => none
    | c :: r2 =>
      if c == ':' || c == '-' then
        if multiline then captureAllPlus r2 else captureDotPlus r2
      else none

/-- Leftmost-first search: the value of capture group 1 of
`str.match(re)`. -/
def regexFirstCapture (words : List (List Char)) (multiline : Bool) :
    List Char → Option (List Char)
  | [] => none
  | cs@(_ :: rest) =>
    match tryLabelAt words multiline cs with
    | some cap => some cap
    | none => regexFirstCapture words multiline rest

def jsRegexCapture (words : List String) (multiline : Bool) (s : String) : Option String :=
  (regexFirstCapture (words.map (·.data)) multiline s.data).map String.mk

/-! ## `parseStructuredMessage` (worker.ts) -/

def parseStructuredMessage (message fallbackDate : String)
    (attachments : Option (List FacebookAttachment))
    (mainAttachment : Option FacebookAttachment)
    (placeName : Option String) : ParsedMessage :=
  let attachmentText := extractAttachmentText attachments
  let normalized := message
  let nameCap := jsRegexCapture ["life", "event", "name"] false normalized
  let dateCap := jsRegexCapture ["date"] false normalized
  let typeCap := jsRegexCapture ["type"] false normalized
  let postCap := jsRegexCapture ["post"] true normalized
  let title := toNullable (jsOrOptStr (nameCap.map jsTrim)
    ((mainAttachment.bind (·.title)).map jsTrim))
  let eventDate :=
    let v := jsTrim (jsOrStr (jsOrStr ((dateCap.map jsTrim).getD "") fallbackDate) "")
    if v == "" then none else some v
  let eventType := toNullable (jsOrOptStr (typeCap.map jsTrim) (mainAttachment.bind (·.type)))
  let description : Option String :=
    match postCap with
    | some cap => some (jsTrim cap)
    | none =>
      if normalized != "" then some (jsTrim normalized)
      else if (attachmentText.getD "") != "" then attachmentText
      else none
  let description :=
    if truthyStr placeName && truthyStr description &&
        !(jsIncludes (description.getD "") (placeName.getD "")) then
      some ((description.getD "") ++ "\n\nLocation: " ++ (placeName.getD ""))
    else description
  ⟨title, description, eventDate, eventType⟩

/-! ## The D1 / R2 store model

Rows carry the columns of `schema.sql`; nullable TEXT columns are
`Option String`, INTEGER flags are `Nat`.  `nextEventId` / `nextPhotoId`
model the AUTOINCREMENT counters and `uuidCounter` models the
`crypto.randomUUID()` stream. -/

structure EventRow where
  id : Nat
  external_id : Option String := none
  external_source : Option String := none
  event_date : Option String := none
  event_type : Option String := none
  event_name_line_1 : Option String := none
  event_name_line_2 : Option String := none
  event_description : Option String := none
  posted_by_name : Option String := none
  posted_by_photo : Option String := none
  date_added : Option String := none
  active : Nat := 1
  approved : Nat := 0
  origin : String
  sync : Nat := 0
  created_at : Option String := none
  updated_at : Option String := none
  deriving Repr, DecidableEq

structure PhotoRow where
  id : Nat
  event_id : Nat
  storage_key : String
  public_url : Option String := none
  original_source_url : Option String := none
  position : Nat := 0
  created_at : Option String := none
  updated_at : Option String := none
  deriving Repr, DecidableEq

structure Store where
  events : List EventRow := []
  photos : List PhotoRow := []
  /-- Keys of the objects in the R2 bucket. -/
  blobs : List String := []
  nextEventId : Nat := 1
  nextPhotoId : Nat := 1
  uuidCounter : Nat := 0
  deriving Repr, DecidableEq

/-- The worker environment bits the reconciliation path reads. -/
structure Config where
  publicBase : Option String := none

structure UpsertResult where
  processed : Bool
  inserted : Bool
  updated : Bool
  deriving Repr, DecidableEq

/-! ## `persistPhotoFromUrl` and its helpers (worker.ts)

The photo download is modelled on its success path with the response
content type `"image/jpeg"`; `crypto.randomUUID()` is the `uuid`
counter. -/

def guessExtension (contentType : String) : String :=
  if jsIncludes contentType "png" then "png"
  else if jsIncludes contentType "webp" then "webp"
  else if jsIncludes contentType "gif" then "gif"
  else "jpg"

/-- `env.PUBLIC_BASE_URL?.replace(/\/$/, "")`: drop one trailing slash. -/
def stripTrailingSlash (s : String) : String :=
  if s.data.getLast? == some '/' then String.mk s.data.dropLast else s

def buildPublicPhotoUrl (cfg : Config) (storageKey : String) : String :=
  let base := (cfg.publicBase.map stripTrailingSlash).getD ""
  if base != "" then base ++ "/photos/" ++ storageKey else "/photos/" ++ storageKey

structure PersistOut where
  photos : List PhotoRow
  blobs : List String
  nextPhotoId : Nat
  uuid : Nat

/-- Success path of `persistPhotoFromUrl`: store the downloaded bytes
under a fresh key and insert the `event_photos` row.  Returns the new
photo table, bucket, photo id counter and uuid counter. -/
def persistPhotoFromUrl (cfg : Config) (eventId : Nat) (sourceUrl : String) (position : Nat)
    (now : String) (photos : List PhotoRow) (blobs : List String) (nextPhotoId uuid : Nat) :
    PersistOut :=
  let contentType := "image/jpeg"
  let extension := guessExtension contentType
  let storageKey := "events/" ++ toString eventId ++ "/" ++ toString uuid ++ "." ++ extension
  let publicUrl := buildPublicPhotoUrl cfg storageKey
  let row : PhotoRow :=
    { id := nextPhotoId, event_id := eventId, storage_key := storageKey,
      public_url := some publicUrl, original_source_url := some sourceUrl,
      position := position, created_at := some now, updated_at := some now }
  ⟨photos ++ [row], blobs ++ [storageKey], nextPhotoId + 1, uuid + 1⟩

/-! ## The photo diff phase of `upsertFacebookPost` -/

/-- The `existingBySource` JS `Map`, as an association list with
`Map.set` (replace-or-append) semantics. -/
def setAssoc (m : List (String × PhotoRow)) (k : String) (v : PhotoRow) :
    List (String × PhotoRow) :=
  if m.any (fun kv => kv.1 == k) then
    m.map (fun kv => if kv.1 == k then (k, v) else kv)
  else m ++ [(k, v)]

def getAssoc (m : List (String × PhotoRow)) (k : String) : Option PhotoRow :=
  (m.find? (fun kv => kv.1 == k)).map (·.2)

/-- `existingPhotos.forEach(p => { if (p.original_source_url)
existingBySource.set(normalizeSourceUrl(p.original_source_url), p) })`. -/
def buildBySource : List PhotoRow → List (String × PhotoRow) → List (String × PhotoRow)
  | [], m => m
  | p :: rest, m =>
    buildBySource rest
      (if truthyStr p.original_source_url then
        setAssoc m (normalizeSourceUrl (p.original_source_url.getD "")) p
      else m)

/-- JS `Set.prototype.add`. -/
def addSeen (seen : List String) (x : String) : List String :=
  if seen.contains x then seen else seen ++ [x]

/-- Mutable state of the `for (const url of photoUrls)` loop. -/
structure PhotoAcc where
  position : Nat
  seen : List String
  photos : List PhotoRow
  blobs : List String
  nextPhotoId : Nat
  uuid : Nat
  deriving Repr, DecidableEq

/-- One iteration of the photo loop: skip falsy URLs, update the
position of an already-stored photo, or download and insert a new one. -/
def photoStep (cfg : Config) (eventId : Nat) (m : List (String × PhotoRow)) (now : String)
    (acc : PhotoAcc) (url : String) : PhotoAcc :=
  if url == "" then acc
  else
    let normalized := normalizeSourceUrl url
    let seen := addSeen acc.seen normalized
    match getAssoc m normalized with
    | some existingPhoto =>
      { acc with
        seen := seen,
        photos := acc.photos.map (fun q =>
          if q.id == existingPhoto.id then
            { q with position := acc.position, updated_at := some now }
          else q),
        position := acc.position + 1 }
    | none =>
      let out := persistPhotoFromUrl cfg eventId url acc.position now acc.photos acc.blobs
        acc.nextPhotoId acc.uuid
      { acc with
        seen := seen, photos := out.photos, blobs := out.blobs,
        nextPhotoId := out.nextPhotoId, uuid := out.uuid, position := acc.position + 1 }

def processUrls (cfg : Config) (eventId : Nat) (m : List (String × PhotoRow)) (now : String) :
    List String → PhotoAcc → PhotoAcc
  | [], acc => acc
  | url :: rest, acc => processUrls cfg eventId m now rest (photoStep cfg eventId m now acc url)

/-- One iteration of the orphan-cleanup loop: delete the row (only the
row — the R2 object is not touched here) when its normalized source URL
was not seen in this pass. -/
def orphanStep (seen : List String) (photos : List PhotoRow) (p : PhotoRow) : List PhotoRow :=
  if truthyStr p.original_source_url &&
      !(seen.contains (normalizeSourceUrl (p.original_source_url.getD ""))) then
    photos.filter (fun q => !(q.id == p.id))
  else photos

def orphanPass (seen : List String) : List PhotoRow → List PhotoRow → List PhotoRow
  | [], photos => photos
  | p :: rest, photos => orphanPass seen rest (orphanStep seen photos p)

structure PhotoPhaseOut where
  photos : List PhotoRow
  blobs : List String
  nextPhotoId : Nat
  uuid : Nat

/-- The whole photo-refresh section of `upsertFacebookPost`: snapshot
the event's photos, walk the current URL list, then delete orphans. -/
def photoPhase (cfg : Config) (eventId : Nat) (photoUrls : List String) (now : String)
    (photos : List PhotoRow) (blobs : List String) (nextPhotoId uuid : Nat) : PhotoPhaseOut :=
  let existingPhotos := photos.filter (fun p => p.event_id == eventId)
  let m := buildBySource existingPhotos []
  let acc := processUrls cfg eventId m now photoUrls
    ⟨0, [], photos, blobs, nextPhotoId, uuid⟩
  ⟨orphanPass acc.seen existingPhotos acc.photos, acc.blobs, acc.nextPhotoId, acc.uuid⟩

/-! ## The event write phase of `upsertFacebookPost` -/

/-- The column values both branches bind. -/
structure EventVals where
  event_date : String
  event_type : String
  line1 : String
  line2 : Option String
  description : Option String
  posted_by_name : Option String
  posted_by_photo : Option String

def eventLookup (events : List EventRow) (pid : String) : Option EventRow :=
  events.find? (fun e => e.external_id == some pid && e.origin == "facebook")

def applyEventUpdate (ev : EventRow) (v : EventVals) (now : String) : EventRow :=
  { ev with
    event_date := some v.event_date, event_type := some v.event_type,
    event_name_line_1 := some v.line1, event_name_line_2 := v.line2,
    event_description := v.description, posted_by_name := v.posted_by_name,
    posted_by_photo := v.posted_by_photo, sync := 1, updated_at := some now }

def newEventRow (id : Nat) (pid : String) (v : EventVals) (now : String) : EventRow :=
  { id := id, external_id := some pid, external_source := some "facebook_post",
    event_date := some v.event_date, event_type := some v.event_type,
    event_name_line_1 := some v.line1, event_name_line_2 := v.line2,
    event_description := v.description, posted_by_name := v.posted_by_name,
    posted_by_photo := v.posted_by_photo, date_added := some now,
    active := 1, approved := 0, origin := "facebook", sync := 1,
    created_at := some now, updated_at := some now }

structure EventPhaseOut where
  eventId : Nat
  inserted : Bool
  events : List EventRow
  nextEventId : Nat

/-- `SELECT id FROM events WHERE external_id = ? AND origin = 'facebook'`
then UPDATE the found row or INSERT a fresh one. -/
def eventPhase (events : List EventRow) (nextEventId : Nat) (pid : String) (v : EventVals)
    (now : String) : EventPhaseOut :=
  match eventLookup events pid with
  | some e =>
    ⟨e.id, false,
      events.map (fun ev => if ev.id == e.id then applyEventUpdate ev v now else ev),
      nextEventId⟩
  | none => ⟨nextEventId, true, events ++ [newEventRow nextEventId pid v now], nextEventId + 1⟩

/-! ## `upsertFacebookPost` (worker.ts) -/

/-- The derivation of the bound column values from the post: parse the
structured message, compose `fullText`, split the headline and resolve
the attribution — the straight-line prefix of `upsertFacebookPost`. -/
def upsertEventVals (post : FacebookPost) (authorProfile : Option AuthorProfile)
    (isLifeEvent : Bool) (now : String) : EventVals :=
  let rawMessage := jsTrim (post.message.getD "")
  let mainAttachment := getPrimaryAttachment post.attachments
  let structured := parseStructuredMessage rawMessage
    (jsOrStr (post.backdated_time.getD "") (post.created_time.getD ""))
    post.attachments mainAttachment post.place_name
  let fullText := jsOrStr (structured.description.getD "")
    (jsOrStr rawMessage
      (jsOrStr ((extractAttachmentText post.attachments).getD "")
        (jsTrim (post.story.getD ""))))
  let split := splitMessage fullText
  let line1 := jsOrStr (structured.title.getD "") split.line1
  let line2 := split.line2
  let authorName := toNullable (jsOrOptStr post.from_name (authorProfile.bind (·.name)))
  let authorPhoto := toNullable (authorProfile.bind (·.photo))
  { event_date := jsOrStr (structured.eventDate.getD "")
      (jsOrStr (post.created_time.getD "") now),
    event_type := jsOrStr (structured.eventType.getD "")
      (jsOrStr (post.status_type.getD "")
        (if isLifeEvent then "life_event" else "memory")),
    line1 := line1, line2 := line2,
    description := toNullable (some fullText),
    posted_by_name := authorName, posted_by_photo := authorPhoto }

/-- `extractPhotoUrls` with the `full_picture` fallback. -/
def upsertPhotoUrls (post : FacebookPost) : List String :=
  let urlsRaw := extractPhotoUrls post.attachments
  if urlsRaw.isEmpty && truthyStr post.full_picture then [post.full_picture.getD ""]
  else urlsRaw

def upsertFacebookPost (cfg : Config) (s : Store) (post : FacebookPost)
    (authorProfile : Option AuthorProfile) (isLifeEvent : Bool) (now : String) :
    UpsertResult × Store :=
  if jsFalsy post.id then (⟨false, false, false⟩, s)
  else
    let pid := post.id.getD ""
    let ep := eventPhase s.events s.nextEventId pid
      (upsertEventVals post authorProfile isLifeEvent now) now
    let pp := photoPhase cfg ep.eventId (upsertPhotoUrls post) now s.photos s.blobs
      s.nextPhotoId s.uuidCounter
    (⟨true, ep.inserted, !ep.inserted⟩,
      { events := ep.events, photos := pp.photos, blobs := pp.blobs,
        nextEventId := ep.nextEventId, nextPhotoId := pp.nextPhotoId,
        uuidCounter := pp.uuid })

/-! ## `fetchFacebookFeed` (worker.ts)

The HTTP exchange is external: the upstream response is a parameter.
`res.ok`, `res.status`, `res.text()` and the decoded JSON body are the
fields of `FeedResponse`; a thrown `Error` is the `Except.error` branch
carrying the thrown message. -/

structure FeedResponse where
  ok : Bool
  status : Nat
  /-- `await res.text()` (read only on the error path). -/
  text : String
  /-- Decoded `json.data`. -/
  data : Option (List FacebookPost)
  /-- Decoded `json.paging?.cursors?.after`. -/
  pagingAfter : Option String

structure FeedPage where
  posts : List FacebookPost
  nextCursor : Option String

/-- The response-handling tail of `fetchFacebookFeed`: throw
`Facebook API error <status>: <body>` on any non-ok response, otherwise
return the posts and cursor. -/
def fetchFacebookFeed (res : FeedResponse) : Except String FeedPage :=
  if !res.ok then
    .error ("Facebook API error " ++ toString res.status ++ ": " ++ res.text)
  else
    .ok ⟨res.data.getD [], res.pagingAfter⟩

/-! ## `syncFromFacebookToD1` (worker.ts)

The feed is a deterministic function from the `after` cursor to a page
(the successful `fetchFacebookFeed` result; the `limit` field selection
only shapes what the external feed returns).  The chained follow-up
request is fire-and-forget I/O and outside the store semantics. -/

structure SyncSummary where
  eventsProcessed : Nat
  inserted : Nat
  updated : Nat
  nextCursor : Option String
  hasMore : Bool

/-- Accumulators of the `while` loop. -/
structure LoopAcc where
  processed : Nat
  inserted : Nat
  updated : Nat
  lastCursor : Option String
  store : Store

/-- The `for (const post of posts)` body: skip posts with neither
message nor story, stop at the target, otherwise reconcile and count. -/
def processPosts (cfg : Config) (profile : Option AuthorProfile) (now : String)
    (maxTotal : Nat) : List FacebookPost → LoopAcc → LoopAcc
  | [], acc => acc
  | post :: rest, acc =>
    if jsFalsy post.message && jsFalsy post.story then
      processPosts cfg profile now maxTotal rest acc
    else if maxTotal ≤ acc.processed then acc
    else
      let isLifeEvent := hasLifeEventAttachment post || post.status_type == some "life_event"
      let r := upsertFacebookPost cfg acc.store post profile isLifeEvent now
      processPosts cfg profile now maxTotal rest
        { processed := acc.processed + (if r.1.processed then 1 else 0),
          inserted := acc.inserted + (if r.1.inserted then 1 else 0),
          updated := acc.updated + (if r.1.updated then 1 else 0),
          lastCursor := acc.lastCursor, store := r.2 }

/-- The `while (processed < maxTotal && iterations < 20)` loop; `fuel`
is `20 - iterations`, so fuel 0 is the page-iteration ceiling.  The
cursor tests `if (nextCursor)` and `!nextCursor` are JS truthiness: an
absent or empty-string cursor is falsy. -/
def syncLoop (cfg : Config) (feed : Option String → FeedPage) (profile : Option AuthorProfile)
    (now : String) (maxTotal : Nat) : Nat → Option String → LoopAcc → LoopAcc
  | 0, _, acc => acc
  | fuel + 1, cursor, acc =>
    if maxTotal ≤ acc.processed then acc
    else
      let page := feed cursor
      if page.posts.isEmpty then acc
      else
        let acc2 := processPosts cfg profile now maxTotal page.posts acc
        let acc3 := { acc2 with
          lastCursor := if truthyStr page.nextCursor then page.nextCursor
            else acc2.lastCursor }
        if maxTotal ≤ acc3.processed || jsFalsy page.nextCursor then acc3
        else syncLoop cfg feed profile now maxTotal fuel page.nextCursor acc3

/-- `opts?.maxTotal && opts.maxTotal > 0 ? opts.maxTotal : 10`. -/
def resolveMaxTotal (o : Option Nat) : Nat :=
  match o with
  | some m => if 0 < m then m else 10
  | none => 10

/-- `syncFromFacebookToD1` without its fire-and-forget chaining tail:
run the bounded fetch loop and build the batch summary. -/
def syncFromFacebookToD1 (cfg : Config) (feed : Option String → FeedPage)
    (profile : Option AuthorProfile) (now : String) (s : Store) (maxTotalOpt : Option Nat)
    (cursor0 : Option String) : SyncSummary × Store :=
  let maxTotal := resolveMaxTotal maxTotalOpt
  let acc := syncLoop cfg feed profile now maxTotal 20 cursor0 ⟨0, 0, 0, none, s⟩
  let hasMore := decide (maxTotal ≤ acc.processed) && truthyStr acc.lastCursor
  (⟨acc.processed, acc.inserted, acc.updated, acc.lastCursor, hasMore⟩, acc.store)

/-! ## `cleanDuplicates` (worker.ts)

The SQL `ROW_NUMBER() OVER (PARTITION BY … ORDER BY id)` rank-`> 1`
selection is: a row is deleted iff another row of its partition has a
smaller id (ids are the primary key, hence distinct).  Deleting an
event cascades to its `event_photos` rows (`ON DELETE CASCADE` in
`schema.sql`); the code deletes the R2 objects of those photos first. -/

def dupEventsByPair (events : List EventRow) : List EventRow :=
  events.filter (fun e =>
    e.external_source.isSome && e.external_id.isSome &&
    events.any (fun e2 =>
      e2.external_source == e.external_source && e2.external_id == e.external_id &&
      decide (e2.id < e.id)))

def dupEventsByExternalId (events : List EventRow) : List EventRow :=
  events.filter (fun e =>
    e.external_id.isSome && e.origin == "facebook" &&
    events.any (fun e2 =>
      e2.external_id == e.external_id && e2.origin == "facebook" && decide (e2.id < e.id)))

def dupPhotosByNormalizedSource (photos : List PhotoRow) : List PhotoRow :=
  photos.filter (fun p =>
    truthyStr p.original_source_url &&
    photos.any (fun q =>
      q.event_id == p.event_id && truthyStr q.original_source_url &&
      normalizeSourceUrl (q.original_source_url.getD "") ==
        normalizeSourceUrl (p.original_source_url.getD "") &&
      decide (q.id < p.id)))

structure DeleteEventsOut where
  events : List EventRow
  photos : List PhotoRow
  blobs : List String

/-- Delete the events with the given ids: drop the R2 objects of their
photos (truthy keys only), the cascade-owned photo rows, and the rows. -/
def deleteEvents (ids : List Nat) (events : List EventRow) (photos : List PhotoRow)
    (blobs : List String) : DeleteEventsOut :=
  let delKeys := ((photos.filter (fun p => ids.contains p.event_id)).map (·.storage_key)).filter
    (fun k => !(k == ""))
  ⟨events.filter (fun e => !(ids.contains e.id)),
   photos.filter (fun p => !(ids.contains p.event_id)),
   blobs.filter (fun b => !(delKeys.contains b))⟩

def cleanDuplicates (s : Store) : (Nat × Nat) × Store :=
  let idsA := (dupEventsByPair s.events).map (·.id)
  let d1 := deleteEvents idsA s.events s.photos s.blobs
  let idsB := (dupEventsByExternalId d1.events).map (·.id)
  let d2 := deleteEvents idsB d1.events d1.photos d1.blobs
  let dupP := dupPhotosByNormalizedSource d2.photos
  let delKeysP := (dupP.map (·.storage_key)).filter (fun k => !(k == ""))
  let blobs3 := d2.blobs.filter (fun b => !(delKeysP.contains b))
  let photos3 := d2.photos.filter (fun p => !((dupP.map (·.id)).contains p.id))
  ((idsA.length + idsB.length, dupP.length),
   { s with events := d2.events, photos := photos3, blobs := blobs3 })

/-! ## Concrete instances used by the claim theorems and witnesses -/

/-- An attachment node that carries only a photo source. -/
def photoAtt (src : String) : FacebookAttachment := .mk none none none none (some src) []

/-- C2 scenario: an event whose stored photos have source URLs A and B. -/
def c2urlA : String := "https://cdn.example/A.jpg"
def c2urlB : String := "https://cdn.example/B.jpg"
def c2urlC : String := "https://cdn.example/C.jpg"

def c2rowA : PhotoRow :=
  { id := 1, event_id := 1, storage_key := "kA", public_url := some "/photos/kA",
    original_source_url := some c2urlA, position := 0 }

def c2rowB : PhotoRow :=
  { id := 2, event_id := 1, storage_key := "kB", public_url := some "/photos/kB",
    original_source_url := some c2urlB, position := 1 }

def c2event : EventRow :=
  { id := 1, external_id := some "post1", external_source := some "facebook_post",
    origin := "facebook" }

def c2store : Store :=
  { events := [c2event], photos := [c2rowA, c2rowB], blobs := ["kA", "kB"],
    nextEventId := 2, nextPhotoId := 3, uuidCounter := 0 }

/-- The same upstream post, now referencing only B and C. -/
def c2post : FacebookPost :=
  { id := some "post1", message := some "Hi",
    attachments := some [photoAtt c2urlB, photoAtt c2urlC] }

def c2out : Store := (upsertFacebookPost {} c2store c2post none false "t2").2

/-- C3 scenario: a post whose attachment tree yields `[A, B, A]`,
reconciled into an event with no existing photos. -/
def c3urlA : String := "https://cdn.example/A.jpg"
def c3urlB : String := "https://cdn.example/B.jpg"

def c3post : FacebookPost :=
  { id := some "p3", message := some "Hi",
    attachments := some [photoAtt c3urlA, photoAtt c3urlB, photoAtt c3urlA] }

def c3out : Store := (upsertFacebookPost {} {} c3post none false "t").2

/-- A post without an upstream identifier (all fields defaulted). -/
def c6post : FacebookPost := {}

/-- A fresh post used to exercise the reconcile-twice theorem. -/
def c1post : FacebookPost :=
  { id := some "w1", message := some "Hello",
    attachments := some [photoAtt "https://cdn.example/W.jpg"] }

/-- An exhausted feed: no posts, no cursor. -/
def c5feed : Option String → FeedPage := fun _ => ⟨[], none⟩

/-- A loop accumulator that has already reached a target of 5. -/
def c5acc : LoopAcc := ⟨5, 0, 0, none, {}⟩

/-- A feed page carrying a post but no pagination cursor. -/
def c5feedNoCursor : Option String → FeedPage := fun _ => ⟨[c1post], none⟩

/-- A fresh loop accumulator. -/
def c5acc0 : LoopAcc := ⟨0, 0, 0, none, {}⟩

/-- Three event rows sharing one (external_source, external_id) pair. -/
def c8a : EventRow :=
  { id := 1, external_id := some "x1", external_source := some "facebook_post",
    origin := "facebook" }
def c8b : EventRow :=
  { id := 2, external_id := some "x1", external_source := some "facebook_post",
    origin := "facebook" }
def c8c : EventRow :=
  { id := 3, external_id := some "x1", external_source := some "facebook_post",
    origin := "facebook" }
def c8store : Store := { events := [c8a, c8b, c8c] }

/-! # Theorems -/

set_option maxRecDepth 20000 in
/-- C9: the headline split maps `"Hello\nworld extra text"` to
line1 `"Hello"` / line2 `"world extra text"`, maps the empty string to
line1 `"Memory"` / line2 null, and cuts a 130-character single first
line to its first 119 characters plus the ellipsis character, total
length exactly 120. -/
theorem splitMessage_cases :
    splitMessage "Hello\nworld extra text" = ⟨"Hello", some "world extra text"⟩ ∧
    splitMessage "" = ⟨"Memory", none⟩ ∧
    splitMessage (String.mk (List.replicate 130 'a')) =
      ⟨String.mk (List.replicate 119 'a') ++ "…", none⟩ ∧
    (splitMessage (String.mk (List.replicate 130 'a'))).line1.length = 120 := by
  refine ⟨by decide, by decide, by decide, by decide⟩

/-- C4 counterexample: the raw text
`"Name: Graduation\nDate: 2020-05-01\nPost: Proud moment"` does NOT
yield title `"Graduation"`: the title pattern of the structurer is
`/life\s*event\s*name\s*[:\-]\s*(.+)/i`, which a bare `Name:` label
does not match, so the title is null. -/
theorem parseStructuredMessage_bare_name_counterexample :
    ¬ (parseStructuredMessage "Name: Graduation\nDate: 2020-05-01\nPost: Proud moment"
        "" none none none).title = some "Graduation" := by decide

/-- C4 (amended): parsing
`"Name: Graduation\nDate: 2020-05-01\nPost: Proud moment"` yields
title = null (the title label must be `Life Event Name:`; a bare
`Name:` does not match), eventDate = `"2020-05-01"`, and
description = `"Proud moment"` (and eventType = null). -/
theorem parseStructuredMessage_labeled_text :
    parseStructuredMessage "Name: Graduation\nDate: 2020-05-01\nPost: Proud moment"
      "" none none none =
    ⟨none, some "Proud moment", some "2020-05-01", none⟩ := by decide

/-- C2 counterexample: reconciling the `{B, C}` post into the event
whose stored photos are `{A, B}` does NOT remove A's blob from the
Blob Store — the orphan cleanup deletes only the `event_photos` row,
so the key `kA` is still in the bucket afterwards. -/
theorem orphanCleanup_keeps_blob_counterexample :
    c2out.blobs.contains "kA" = true := by decide

/-- C2 (amended): for the event with stored photos `{A, B}`,
reconciling a post that now only references `{B, C}` removes A's Photo
row (but leaves A's blob `kA` in the Blob Store — only the dedupe
janitor deletes blobs), keeps B with its position updated to 0, and
inserts a new Photo row for C at position 1 (with a freshly stored
blob). -/
theorem orphanCleanup_row_diff :
    c2out.photos = [{ c2rowB with position := 0, updated_at := some "t2" },
      { id := 3, event_id := 1, storage_key := "events/1/0.jpg",
        public_url := some "/photos/events/1/0.jpg", original_source_url := some c2urlC,
        position := 1, created_at := some "t2", updated_at := some "t2" }] ∧
    c2out.blobs = ["kA", "kB", "events/1/0.jpg"] := by
  refine ⟨by decide, by decide⟩

/-- C3: evaluating the reconcile at the failing input — a post whose
attachment tree yields `[A, B, A]`, against an event with no existing
photos — creates TWO Photo rows for A (positions 0 and 2) and one for
B (position 1): the loop consults only the pre-pass snapshot map, never
`seenSources`, so the second occurrence of A is downloaded and inserted
again, contrary to the claimed within-pass dedup. -/
theorem photoLoop_no_within_pass_dedup :
    c3out.photos.map (fun p => (p.original_source_url, p.position)) =
      [(some c3urlA, 0), (some c3urlB, 1), (some c3urlA, 2)] ∧
    (c3out.photos.filter (fun p =>
      normalizeSourceUrl (p.original_source_url.getD "") ==
        normalizeSourceUrl c3urlA)).length = 2 := by
  refine ⟨by decide, by decide⟩

/-- C6: a post without an upstream identifier is not processed and has
no side effects: the reconcile returns `processed = false` and leaves
the whole store (events, photos and blobs) untouched. -/
theorem upsertFacebookPost_no_id_no_side_effects (cfg : Config) (s : Store)
    (post : FacebookPost) (profile : Option AuthorProfile) (isLifeEvent : Bool) (now : String)
    (h : jsFalsy post.id = true) :
    upsertFacebookPost cfg s post profile isLifeEvent now = (⟨false, false, false⟩, s) := by
  simp [upsertFacebookPost, h]

theorem upsertFacebookPost_no_id_witness :
    jsFalsy c6post.id = true ∧
    upsertFacebookPost {} c2store c6post none false "t" = (⟨false, false, false⟩, c2store) :=
  ⟨by decide, upsertFacebookPost_no_id_no_side_effects {} c2store c6post none false "t"
    (by decide)⟩

/-- C7: every non-ok HTTP response from the feed API makes the page
fetch fail with the thrown `Facebook API error <status>: <body>`
message carrying the upstream status and body, and no posts are
returned (the error propagates; nothing is retried inside the call). -/
theorem fetchFacebookFeed_non_ok_fails (status : Nat) (text : String)
    (data : Option (List FacebookPost)) (pagingAfter : Option String) :
    fetchFacebookFeed ⟨false, status, text, data, pagingAfter⟩ =
      .error ("Facebook API error " ++ toString status ++ ": " ++ text) ∧
    (fetchFacebookFeed ⟨false, status, text, data, pagingAfter⟩).toOption = none := by
  refine ⟨rfl, rfl⟩

/-! ### URL normalization lemmas (C10) -/

theorem string_append_empty (t : String) : t ++ "" = t := by
  cases t with
  | mk d => show String.mk (d ++ []) = String.mk d; rw [List.append_nil]

theorem charClass_noQueryHash (c : Char)
    (h : (c.isAlpha || c.isDigit || c == '+' || c == '-' || c == '.') = true) :
    noQueryHash c = true := by
  by_cases h1 : c = '?'
  · subst h1; simp at h
  · by_cases h2 : c = '#'
    · subst h2; simp at h
    · simp [noQueryHash, h1, h2]

theorem isAlpha_noQueryHash (c : Char) (h : c.isAlpha = true) : noQueryHash c = true :=
  charClass_noQueryHash c (by simp [h])

theorem colon_noQueryHash : noQueryHash ':' = true := by decide

theorem schemeRestOk_takeWhile (cs : List Char) (h : schemeRestOk cs = true) :
    schemeRestOk (cs.takeWhile noQueryHash) = true := by
  induction cs with
  | nil => simp [schemeRestOk] at h
  | cons c cs ih =>
    rw [schemeRestOk] at h
    by_cases hc : c == ':'
    · have hc' : c = ':' := by simpa using hc
      subst hc'
      simp [List.takeWhile_cons, colon_noQueryHash, schemeRestOk]
    · rw [if_neg hc] at h
      obtain ⟨hclass, hrest⟩ := Bool.and_eq_true _ _ ▸ h
      have hnq : noQueryHash c = true := charClass_noQueryHash c hclass
      simp only [List.takeWhile_cons, hnq, if_pos]
      rw [schemeRestOk, if_neg hc]
      exact (Bool.and_eq_true _ _).symm ▸ ⟨hclass, ih hrest⟩

theorem schemeOk_takeWhile (cs : List Char) (h : schemeOk cs = true) :
    schemeOk (cs.takeWhile noQueryHash) = true := by
  cases cs with
  | nil => simp [schemeOk] at h
  | cons c cs =>
    rw [schemeOk] at h
    obtain ⟨ha, hrest⟩ := Bool.and_eq_true _ _ ▸ h
    simp only [List.takeWhile_cons, isAlpha_noQueryHash c ha, if_pos]
    rw [schemeOk]
    exact (Bool.and_eq_true _ _).symm ▸ ⟨ha, schemeRestOk_takeWhile cs hrest⟩

theorem takeWhile_takeWhile_self (p : Char → Bool) (l : List Char) :
    (l.takeWhile p).takeWhile p = l.takeWhile p := by
  induction l with
  | nil => rfl
  | cons c cs ih =>
    by_cases hc : p c
    · simp [List.takeWhile_cons, hc, ih]
    · simp [List.takeWhile_cons, hc]

theorem dropWhile_takeWhile_self (p : Char → Bool) (l : List Char) :
    (l.takeWhile p).dropWhile p = [] := by
  induction l with
  | nil => rfl
  | cons c cs ih =>
    by_cases hc : p c
    · simp [List.takeWhile_cons, List.dropWhile_cons, hc, ih]
    · simp [List.takeWhile_cons, hc]

/-- C10: `normalizeSourceUrl` is a total, idempotent function: an input
that does not parse as a URL is returned unchanged, a parseable URL is
returned with its query string and fragment removed (the serialization
with `search` and `hash` cleared), and applying it twice gives the same
result as applying it once. -/
theorem normalizeSourceUrl_total_idempotent (s : String) :
    (parseURL s = none → normalizeSourceUrl s = s) ∧
    (∀ u, parseURL s = some u →
      normalizeSourceUrl s = URLParts.serialize { u with search := "", hash := "" }) ∧
    normalizeSourceUrl (normalizeSourceUrl s) = normalizeSourceUrl s := by
  refine ⟨fun h => by simp [normalizeSourceUrl, h], fun u h => by simp [normalizeSourceUrl, h],
    ?_⟩
  by_cases h : schemeOk s.data
  · have hparse : parseURL s = some
        ⟨String.mk (s.data.takeWhile noQueryHash),
         String.mk (if (s.data.dropWhile noQueryHash).headD ' ' == '?' then
           (s.data.dropWhile noQueryHash).takeWhile (fun c => !(c == '#')) else []),
         String.mk ((s.data.dropWhile noQueryHash).dropWhile (fun c => !(c == '#')))⟩ := by
      simp [parseURL, h]
    have hnorm : normalizeSourceUrl s = String.mk (s.data.takeWhile noQueryHash) := by
      rw [normalizeSourceUrl, hparse]
      show String.mk (s.data.takeWhile noQueryHash) ++ "" ++ "" = _
      rw [string_append_empty, string_append_empty]
    rw [hnorm]
    have hscheme2 : schemeOk (String.mk (s.data.takeWhile noQueryHash)).data = true :=
      schemeOk_takeWhile s.data h
    have hparse2 : parseURL (String.mk (s.data.takeWhile noQueryHash)) = some
        ⟨String.mk (s.data.takeWhile noQueryHash), String.mk [], String.mk []⟩ := by
      simp only [parseURL, hscheme2, if_pos]
      rw [takeWhile_takeWhile_self, dropWhile_takeWhile_self]
      rfl
    rw [normalizeSourceUrl, hparse2]
    show String.mk (s.data.takeWhile noQueryHash) ++ "" ++ "" = _
    rw [string_append_empty, string_append_empty]
  · have hparse : parseURL s = none := by simp [parseURL, h]
    simp [normalizeSourceUrl, hparse]

/-- Witness for C10 at concrete inputs: a non-URL string is returned
unchanged, and a URL with query and fragment is cut back to its base. -/
theorem normalizeSourceUrl_witness :
    parseURL "not a url" = none ∧ normalizeSourceUrl "not a url" = "not a url" ∧
    parseURL "https://h.example/p?q=1#frag" =
      some ⟨"https://h.example/p", "?q=1", "#frag"⟩ ∧
    normalizeSourceUrl "https://h.example/p?q=1#frag" = "https://h.example/p" := by
  refine ⟨by decide, (normalizeSourceUrl_total_idempotent "not a url").1 (by decide),
    by decide, ?_⟩
  have h := (normalizeSourceUrl_total_idempotent "https://h.example/p?q=1#frag").2.1
    ⟨"https://h.example/p", "?q=1", "#frag"⟩ (by decide)
  exact h.trans (by decide)

/-! ### Batch controller (C5) -/

/-- C5: for every batch run, the returned `hasMore` flag is true iff
the number of processed qualifying posts reached the resolved target
count and a (truthy) pagination cursor remains; and the fetch loop
stops — with the accumulators as they stand — when the target is
already reached, when a page yields no posts, when a page yields no
(truthy) cursor — after processing that page's posts, with no further
feed call — and when the 20-page iteration ceiling (fuel 0) is
reached. -/
theorem syncFromFacebookToD1_hasMore_and_stops (cfg : Config)
    (feed : Option String → FeedPage) (profile : Option AuthorProfile) (now : String)
    (s : Store) (maxTotalOpt : Option Nat) (cursor0 : Option String) (maxTotal : Nat) :
    ((syncFromFacebookToD1 cfg feed profile now s maxTotalOpt cursor0).1.hasMore = true ↔
      resolveMaxTotal maxTotalOpt ≤
        (syncFromFacebookToD1 cfg feed profile now s maxTotalOpt cursor0).1.eventsProcessed ∧
      truthyStr (syncFromFacebookToD1 cfg feed profile now s maxTotalOpt
        cursor0).1.nextCursor = true) ∧
    (∀ fuel cursor acc, maxTotal ≤ acc.processed →
      syncLoop cfg feed profile now maxTotal (fuel + 1) cursor acc = acc) ∧
    (∀ fuel cursor acc, (feed cursor).posts = [] →
      syncLoop cfg feed profile now maxTotal (fuel + 1) cursor acc = acc) ∧
    (∀ fuel cursor acc, ¬ maxTotal ≤ acc.processed →
      jsFalsy (feed cursor).nextCursor = true →
      syncLoop cfg feed profile now maxTotal (fuel + 1) cursor acc =
        processPosts cfg profile now maxTotal (feed cursor).posts acc) ∧
    (∀ cursor acc, syncLoop cfg feed profile now maxTotal 0 cursor acc = acc) := by
  refine ⟨?_, ?_, ?_, ?_, fun cursor acc => rfl⟩
  · simp [syncFromFacebookToD1]
  · intro fuel cursor acc h
    simp [syncLoop, h]
  · intro fuel cursor acc h
    simp [syncLoop, h]
  · intro fuel cursor acc hp hc
    have hc' : ((feed cursor).nextCursor.getD "" == "") = true := hc
    have ht : truthyStr (feed cursor).nextCursor = false := by
      simp only [truthyStr, hc', Bool.not_true]
    rw [syncLoop, if_neg hp]
    by_cases hemp : (feed cursor).posts.isEmpty
    · rw [if_pos hemp, List.isEmpty_iff.mp hemp, processPosts]
    · rw [if_neg hemp]
      simp only [ht, hc, Bool.or_true, if_pos, if_neg Bool.false_ne_true]

/-- Witness for C5: the stop conditions fire at concrete inputs — a
loop whose accumulator already reached the target of 5 returns it
unchanged, a page with no posts ends the loop, and a page carrying a
post but no cursor is processed once and then ends the loop. -/
theorem syncFromFacebookToD1_stops_witness :
    (5 ≤ c5acc.processed ∧ syncLoop {} c5feed none "t" 5 1 none c5acc = c5acc) ∧
    ((c5feed none).posts = [] ∧ syncLoop {} c5feed none "t" 99 1 none c5acc = c5acc) ∧
    (¬ 5 ≤ c5acc0.processed ∧ jsFalsy (c5feedNoCursor none).nextCursor = true ∧
      syncLoop {} c5feedNoCursor none "t" 5 1 none c5acc0 =
        processPosts {} none "t" 5 (c5feedNoCursor none).posts c5acc0) := by
  refine ⟨⟨by decide, ?_⟩, ⟨rfl, ?_⟩, ⟨by decide, rfl, ?_⟩⟩
  · exact (syncFromFacebookToD1_hasMore_and_stops {} c5feed none "t" {} none none 5).2.1
      0 none c5acc (by decide)
  · exact (syncFromFacebookToD1_hasMore_and_stops {} c5feed none "t" {} none none 99).2.2.1
      0 none c5acc rfl
  · exact (syncFromFacebookToD1_hasMore_and_stops {} c5feedNoCursor none "t" {} none none
      5).2.2.2.1 0 none c5acc0 (by decide) rfl

/-! ### Duplicate janitor (C8) -/

/-! ### Duplicate janitor (C8) -/

/-- C8: a store holding exactly three Event rows (listed in id order,
as D1 scans the table) that share one identical non-null
(external_source, external_id) pair is collapsed by one dedupe pass to
exactly the row with the lowest id, and the pass reports
`eventsRemoved = 2`. -/
theorem cleanDuplicates_three_way (s : Store) (a b c : EventRow) (es ei : String)
    (hev : s.events = [a, b, c])
    (hsa : a.external_source = some es) (hsb : b.external_source = some es)
    (hsc : c.external_source = some es)
    (hia : a.external_id = some ei) (hib : b.external_id = some ei)
    (hic : c.external_id = some ei)
    (hab : a.id < b.id) (hbc : b.id < c.id) :
    (cleanDuplicates s).1.1 = 2 ∧ (cleanDuplicates s).2.events = [a] := by
  have hba : ¬ (b.id < a.id) := by omega
  have hca : ¬ (c.id < a.id) := by omega
  have haa : ¬ (a.id < a.id) := by omega
  have hcb : ¬ (c.id < b.id) := by omega
  have hbb : ¬ (b.id < b.id) := by omega
  have hcc : ¬ (c.id < c.id) := by omega
  have hac : a.id < c.id := by omega
  have hanb : a.id ≠ b.id := by omega
  have hanc : a.id ≠ c.id := by omega
  have hdupA : dupEventsByPair s.events = [b, c] := by
    rw [hev]
    simp [dupEventsByPair, List.filter, List.any, hsa, hsb, hsc, hia, hib, hic,
      hab, hbc, hac, hba, hca, haa, hcb, hbb, hcc]
  have hids : (dupEventsByPair s.events).map (fun e => e.id) = [b.id, c.id] := by
    rw [hdupA]; rfl
  have hd1ev : (deleteEvents [b.id, c.id] s.events s.photos s.blobs).events = [a] := by
    show s.events.filter _ = [a]
    rw [hev]
    simp [List.filter, List.contains, hanb, hanc]
  have hdupB : dupEventsByExternalId [a] = [] := by
    simp [dupEventsByExternalId, List.filter, List.any, haa]
  constructor
  · simp only [cleanDuplicates, hids, hd1ev, hdupB]
    rfl
  · simp only [cleanDuplicates, hids, hd1ev, hdupB]
    simp [deleteEvents]

/-- Witness for C8: three concrete rows with ids 1 < 2 < 3 sharing the
pair ("facebook_post", "x1") collapse to the id-1 row with
`eventsRemoved = 2`. -/
theorem cleanDuplicates_three_way_witness :
    (c8a.id < c8b.id ∧ c8b.id < c8c.id) ∧
    (cleanDuplicates c8store).1.1 = 2 ∧ (cleanDuplicates c8store).2.events = [c8a] :=
  ⟨⟨by decide, by decide⟩,
   cleanDuplicates_three_way c8store c8a c8b c8c "facebook_post" "x1" rfl rfl rfl rfl rfl
     rfl rfl (by decide) (by decide)⟩

/-! ### Reconciliation engine lemmas (C1) -/

theorem photoStep_preserves (cfg : Config) (eid : Nat) (m : List (String × PhotoRow))
    (now : String) (acc : PhotoAcc) (u : String) (r : PhotoRow) (hr : r ∈ acc.photos) :
    ∃ r', r' ∈ (photoStep cfg eid m now acc u).photos ∧ r'.id = r.id ∧
      r'.event_id = r.event_id ∧ r'.original_source_url = r.original_source_url := by
  by_cases hu : (u == "") = true
  · simp only [photoStep, if_pos hu]
    exact ⟨r, hr, rfl, rfl, rfl⟩
  · simp only [photoStep, if_neg hu]
    cases hget : getAssoc m (normalizeSourceUrl u) with
    | some ep =>
      simp only [hget]
      refine ⟨(fun q => if q.id == ep.id then
          { q with position := acc.position, updated_at := some now } else q) r,
        List.mem_map_of_mem _ hr, ?_, ?_, ?_⟩ <;>
        (dsimp only; split <;> rfl)
    | none =>
      simp only [hget, persistPhotoFromUrl]
      exact ⟨r, List.mem_append_left _ hr, rfl, rfl, rfl⟩

theorem processUrls_preserves (cfg : Config) (eid : Nat) (m : List (String × PhotoRow))
    (now : String) (urls : List String) :
    ∀ acc r, r ∈ acc.photos →
      ∃ r', r' ∈ (processUrls cfg eid m now urls acc).photos ∧ r'.id = r.id ∧
        r'.event_id = r.event_id ∧ r'.original_source_url = r.original_source_url := by
  induction urls with
  | nil => exact fun acc r hr => ⟨r, hr, rfl, rfl, rfl⟩
  | cons u rest ih =>
    intro acc r hr
    obtain ⟨r1, hr1, hid, hev, hsrc⟩ := photoStep_preserves cfg eid m now acc u r hr
    obtain ⟨r2, hr2, hid2, hev2, hsrc2⟩ := ih (photoStep cfg eid m now acc u) r1 hr1
    exact ⟨r2, hr2, hid2.trans hid, hev2.trans hev, hsrc2.trans hsrc⟩

theorem photoStep_photos_from (cfg : Config) (eid : Nat) (m : List (String × PhotoRow))
    (now : String) (acc : PhotoAcc) (u : String) (r' : PhotoRow)
    (h : r' ∈ (photoStep cfg eid m now acc u).photos) :
    (∃ r, r ∈ acc.photos ∧ r'.id = r.id ∧ r'.event_id = r.event_id ∧
      r'.original_source_url = r.original_source_url) ∨
    (¬(u == "") = true ∧ r'.event_id = eid ∧ r'.original_source_url = some u) := by
  by_cases hu : (u == "") = true
  · simp only [photoStep, if_pos hu] at h
    exact .inl ⟨r', h, rfl, rfl, rfl⟩
  · simp only [photoStep, if_neg hu] at h
    cases hget : getAssoc m (normalizeSourceUrl u) with
    | some ep =>
      simp only [hget] at h
      obtain ⟨q, hq, rfl⟩ := List.mem_map.mp h
      refine .inl ⟨q, hq, ?_, ?_, ?_⟩ <;> (dsimp only; split <;> rfl)
    | none =>
      simp only [hget, persistPhotoFromUrl] at h
      rcases List.mem_append.mp h with h1 | h2
      · exact .inl ⟨r', h1, rfl, rfl, rfl⟩
      · right
        rw [List.mem_singleton.mp h2]
        exact ⟨hu, rfl, rfl⟩

theorem processUrls_photos_from (cfg : Config) (eid : Nat) (m : List (String × PhotoRow))
    (now : String) (urls : List String) :
    ∀ acc r', r' ∈ (processUrls cfg eid m now urls acc).photos →
      (∃ r, r ∈ acc.photos ∧ r'.id = r.id ∧ r'.event_id = r.event_id ∧
        r'.original_source_url = r.original_source_url) ∨
      (∃ u, u ∈ urls ∧ ¬(u == "") = true ∧ r'.event_id = eid ∧
        r'.original_source_url = some u) := by
  induction urls with
  | nil => exact fun acc r' h => .inl ⟨r', h, rfl, rfl, rfl⟩
  | cons u rest ih =>
    intro acc r' h
    rcases ih (photoStep cfg eid m now acc u) r' h with ⟨r1, hr1, hid, hev, hsrc⟩ | ⟨u', hu', hne, hev, hsrc⟩
    · rcases photoStep_photos_from cfg eid m now acc u r1 hr1 with ⟨r0, hr0, hid0, hev0, hsrc0⟩ | ⟨hne, hev0, hsrc0⟩
      · exact .inl ⟨r0, hr0, hid.trans hid0, hev.trans hev0, hsrc.trans hsrc0⟩
      · exact .inr ⟨u, List.mem_cons_self _ _, hne, hev.trans hev0, hsrc.trans hsrc0⟩
    · exact .inr ⟨u', List.mem_cons_of_mem _ hu', hne, hev, hsrc⟩

theorem mem_addSeen_self (seen : List String) (x : String) : x ∈ addSeen seen x := by
  unfold addSeen
  split
  · next h => exact List.elem_iff.mp h
  · exact List.mem_append_right _ (List.mem_singleton.mpr rfl)

theorem mem_addSeen_of_mem (seen : List String) (x y : String) (h : x ∈ seen) :
    x ∈ addSeen seen y := by
  unfold addSeen
  split
  · exact h
  · exact List.mem_append_left _ h

theorem photoStep_seen_mono (cfg : Config) (eid : Nat) (m : List (String × PhotoRow))
    (now : String) (acc : PhotoAcc) (u : String) (x : String) (hx : x ∈ acc.seen) :
    x ∈ (photoStep cfg eid m now acc u).seen := by
  by_cases hu : (u == "") = true
  · simpa only [photoStep, if_pos hu] using hx
  · simp only [photoStep, if_neg hu]
    cases hget : getAssoc m (normalizeSourceUrl u) with
    | some ep => simp only [hget]; exact mem_addSeen_of_mem _ _ _ hx
    | none => simp only [hget]; exact mem_addSeen_of_mem _ _ _ hx

theorem photoStep_seen_self (cfg : Config) (eid : Nat) (m : List (String × PhotoRow))
    (now : String) (acc : PhotoAcc) (u : String) (hu : ¬(u == "") = true) :
    normalizeSourceUrl u ∈ (photoStep cfg eid m now acc u).seen := by
  simp only [photoStep, if_neg hu]
  cases hget : getAssoc m (normalizeSourceUrl u) with
  | some ep => simp only [hget]; exact mem_addSeen_self _ _
  | none => simp only [hget]; exact mem_addSeen_self _ _

theorem processUrls_seen_mono (cfg : Config) (eid : Nat) (m : List (String × PhotoRow))
    (now : String) (urls : List String) :
    ∀ acc x, x ∈ acc.seen → x ∈ (processUrls cfg eid m now urls acc).seen := by
  induction urls with
  | nil => exact fun acc x hx => hx
  | cons u rest ih =>
    exact fun acc x hx => ih _ x (photoStep_seen_mono cfg eid m now acc u x hx)

theorem processUrls_seen_of_mem (cfg : Config) (eid : Nat) (m : List (String × PhotoRow))
    (now : String) (urls : List String) :
    ∀ acc u, u ∈ urls → ¬(u == "") = true →
      normalizeSourceUrl u ∈ (processUrls cfg eid m now urls acc).seen := by
  induction urls with
  | nil => intro acc u hu; simp at hu
  | cons u0 rest ih =>
    intro acc u hu hne
    rcases List.mem_cons.mp hu with rfl | hu'
    · exact processUrls_seen_mono cfg eid m now rest _ _
        (photoStep_seen_self cfg eid m now acc u hne)
    · exact ih _ u hu' hne

theorem processUrls_no_insert (cfg : Config) (eid : Nat) (m : List (String × PhotoRow))
    (now : String) (urls : List String)
    (hcov : ∀ u, u ∈ urls → ¬(u == "") = true →
      (getAssoc m (normalizeSourceUrl u)).isSome = true) :
    ∀ acc, (processUrls cfg eid m now urls acc).photos.length = acc.photos.length ∧
      (processUrls cfg eid m now urls acc).blobs = acc.blobs := by
  induction urls with
  | nil => exact fun acc => ⟨rfl, rfl⟩
  | cons u rest ih =>
    intro acc
    have hcov' : ∀ u', u' ∈ rest → ¬(u' == "") = true →
        (getAssoc m (normalizeSourceUrl u')).isSome = true :=
      fun u' hu' => hcov u' (List.mem_cons_of_mem _ hu')
    by_cases hu : (u == "") = true
    · have hstep : photoStep cfg eid m now acc u = acc := by
        simp only [photoStep, if_pos hu]
      rw [processUrls, hstep]
      exact ih hcov' acc
    · obtain ⟨ep, hget⟩ := Option.isSome_iff_exists.mp
        (hcov u (List.mem_cons_self _ _) hu)
      have hstep : (photoStep cfg eid m now acc u).photos.length = acc.photos.length ∧
          (photoStep cfg eid m now acc u).blobs = acc.blobs := by
        simp only [photoStep, if_neg hu, hget]
        exact ⟨List.length_map _ _, trivial⟩
      rw [processUrls]
      obtain ⟨h1, h2⟩ := ih hcov' (photoStep cfg eid m now acc u)
      exact ⟨h1.trans hstep.1, h2.trans hstep.2⟩

theorem processUrls_covers (cfg : Config) (eid : Nat) (now : String) (urls : List String) :
    ∀ acc u, u ∈ urls → ¬(u == "") = true →
      ∃ r', r' ∈ (processUrls cfg eid [] now urls acc).photos ∧ r'.event_id = eid ∧
        r'.original_source_url = some u := by
  induction urls with
  | nil => intro acc u hu; simp at hu
  | cons u0 rest ih =>
    intro acc u hu hne
    rcases List.mem_cons.mp hu with rfl | hu'
    · have hget : getAssoc ([] : List (String × PhotoRow)) (normalizeSourceUrl u) = none := rfl
      have hrow : ∃ row, row ∈ (photoStep cfg eid [] now acc u).photos ∧
          row.event_id = eid ∧ row.original_source_url = some u := by
        simp only [photoStep, if_neg hne, hget, persistPhotoFromUrl]
        exact ⟨_, List.mem_append_right _ (List.mem_singleton.mpr rfl), rfl, rfl⟩
      obtain ⟨row, hmem, hev, hsrc⟩ := hrow
      obtain ⟨r2, hr2, _, hev2, hsrc2⟩ :=
        processUrls_preserves cfg eid [] now rest (photoStep cfg eid [] now acc u) row hmem
      exact ⟨r2, hr2, hev2.trans hev, hsrc2.trans hsrc⟩
    · exact ih (photoStep cfg eid [] now acc u0) u hu' hne

theorem orphanStep_eq_of_seen (seen : List String) (photos : List PhotoRow) (p : PhotoRow)
    (h : truthyStr p.original_source_url = true →
      seen.contains (normalizeSourceUrl (p.original_source_url.getD "")) = true) :
    orphanStep seen photos p = photos := by
  unfold orphanStep
  by_cases ht : truthyStr p.original_source_url = true
  · rw [if_neg]
    rw [h ht]
    simp
  · rw [if_neg]
    simp [Bool.not_eq_true] at ht
    simp [ht]

theorem orphanPass_eq_of_seen (seen : List String) :
    ∀ existing photos, (∀ p, p ∈ existing → truthyStr p.original_source_url = true →
      seen.contains (normalizeSourceUrl (p.original_source_url.getD "")) = true) →
    orphanPass seen existing photos = photos := by
  intro existing
  induction existing with
  | nil => exact fun photos _ => rfl
  | cons p rest ih =>
    intro photos h
    rw [orphanPass, orphanStep_eq_of_seen seen photos p (h p (List.mem_cons_self _ _))]
    exact ih photos (fun q hq => h q (List.mem_cons_of_mem _ hq))

theorem getAssoc_isSome_iff (m : List (String × PhotoRow)) (k : String) :
    (getAssoc m k).isSome = true ↔ ∃ kv, kv ∈ m ∧ kv.1 = k := by
  simp [getAssoc, List.find?_isSome]

theorem setAssoc_mem_self (m : List (String × PhotoRow)) (k : String) (v : PhotoRow) :
    ∃ kv, kv ∈ setAssoc m k v ∧ kv.1 = k := by
  unfold setAssoc
  split
  · next h =>
    obtain ⟨kv0, hkv0, hk⟩ := List.any_eq_true.mp h
    refine ⟨(k, v), ?_, rfl⟩
    have hmem := List.mem_map_of_mem (fun kv => if kv.1 == k then (k, v) else kv) hkv0
    simpa [hk] using hmem
  · exact ⟨(k, v), List.mem_append_right _ (List.mem_singleton.mpr rfl), rfl⟩

theorem setAssoc_mem_mono (m : List (String × PhotoRow)) (k : String) (v : PhotoRow)
    (kv' : String × PhotoRow) (h : kv' ∈ m) :
    ∃ kv, kv ∈ setAssoc m k v ∧ kv.1 = kv'.1 := by
  unfold setAssoc
  split
  · refine ⟨if kv'.1 == k then (k, v) else kv', List.mem_map_of_mem _ h, ?_⟩
    by_cases hk : (kv'.1 == k) = true
    · rw [if_pos hk]
      exact (beq_iff_eq.mp hk).symm
    · rw [if_neg hk]
  · exact ⟨kv', List.mem_append_left _ h, rfl⟩

theorem getAssoc_buildBySource_isSome (rows : List PhotoRow) :
    ∀ m k, ((∃ p, p ∈ rows ∧ truthyStr p.original_source_url = true ∧
        normalizeSourceUrl (p.original_source_url.getD "") = k) ∨
      (getAssoc m k).isSome = true) →
    (getAssoc (buildBySource rows m) k).isSome = true := by
  induction rows with
  | nil =>
    intro m k h
    rcases h with ⟨p, hp, _⟩ | hm
    · simp at hp
    · exact hm
  | cons p rest ih =>
    intro m k h
    rw [buildBySource]
    apply ih
    rcases h with ⟨q, hq, ht, hk⟩ | hm
    · rcases List.mem_cons.mp hq with rfl | hq'
      · right
        rw [if_pos ht, getAssoc_isSome_iff]
        obtain ⟨kv, hkv, hkv1⟩ := setAssoc_mem_self m
          (normalizeSourceUrl (q.original_source_url.getD "")) q
        exact ⟨kv, hkv, hkv1.trans hk⟩
      · exact .inl ⟨q, hq', ht, hk⟩
    · right
      by_cases htp : truthyStr p.original_source_url = true
      · rw [if_pos htp, getAssoc_isSome_iff]
        obtain ⟨kv', hkv', hkv1⟩ := (getAssoc_isSome_iff m k).mp hm
        obtain ⟨kv, hkv, hk1⟩ := setAssoc_mem_mono m
          (normalizeSourceUrl (p.original_source_url.getD "")) p kv' hkv'
        exact ⟨kv, hkv, hk1.trans hkv1⟩
      · rw [if_neg htp]
        exact hm

theorem upsert_not_falsy (cfg : Config) (s : Store) (post : FacebookPost)
    (profile : Option AuthorProfile) (ile : Bool) (now : String)
    (h : jsFalsy post.id = false) :
    upsertFacebookPost cfg s post profile ile now =
      (let ep := eventPhase s.events s.nextEventId (post.id.getD "")
        (upsertEventVals post profile ile now) now
       let pp := photoPhase cfg ep.eventId (upsertPhotoUrls post) now s.photos s.blobs
         s.nextPhotoId s.uuidCounter
       (⟨true, ep.inserted, !ep.inserted⟩,
        { events := ep.events, photos := pp.photos, blobs := pp.blobs,
          nextEventId := ep.nextEventId, nextPhotoId := pp.nextPhotoId,
          uuidCounter := pp.uuid })) := by
  simp only [upsertFacebookPost, h]
  rfl

theorem eventPhase_none (events : List EventRow) (nid : Nat) (pid : String) (v : EventVals)
    (now : String) (h : eventLookup events pid = none) :
    eventPhase events nid pid v now = ⟨nid, true, events ++ [newEventRow nid pid v now], nid + 1⟩ := by
  unfold eventPhase
  rw [h]

theorem eventPhase_some (events : List EventRow) (nid : Nat) (pid : String) (v : EventVals)
    (now : String) (e : EventRow) (h : eventLookup events pid = some e) :
    eventPhase events nid pid v now = ⟨e.id, false,
      events.map (fun ev => if ev.id == e.id then applyEventUpdate ev v now else ev), nid⟩ := by
  unfold eventPhase
  rw [h]

/-- C1: reconciling the same post twice with unchanged content (the
post has a truthy upstream id, its event is not yet in the store, and
the fresh event id is unused by any photo row) returns
`processed, inserted` on the first call and `processed, updated` (not
`inserted`) on the second, and the number of Event rows and of Photo
rows after the second call equals the counts after the first. -/
theorem upsertFacebookPost_idempotent (cfg : Config) (s0 : Store) (post : FacebookPost)
    (profile1 profile2 : Option AuthorProfile) (ile1 ile2 : Bool) (now1 now2 : String)
    (h1 : jsFalsy post.id = false)
    (h2 : eventLookup s0.events (post.id.getD "") = none)
    (h3 : ∀ p, p ∈ s0.photos → ¬ p.event_id = s0.nextEventId) :
    (upsertFacebookPost cfg s0 post profile1 ile1 now1).1 = ⟨true, true, false⟩ ∧
    (upsertFacebookPost cfg (upsertFacebookPost cfg s0 post profile1 ile1 now1).2 post
      profile2 ile2 now2).1 = ⟨true, false, true⟩ ∧
    (upsertFacebookPost cfg (upsertFacebookPost cfg s0 post profile1 ile1 now1).2 post
      profile2 ile2 now2).2.events.length =
      (upsertFacebookPost cfg s0 post profile1 ile1 now1).2.events.length ∧
    (upsertFacebookPost cfg (upsertFacebookPost cfg s0 post profile1 ile1 now1).2 post
      profile2 ile2 now2).2.photos.length =
      (upsertFacebookPost cfg s0 post profile1 ile1 now1).2.photos.length := by
  have hfilter0 : s0.photos.filter (fun p => p.event_id == s0.nextEventId) = [] := by
    rw [List.filter_eq_nil_iff]
    intro p hp
    simpa using h3 p hp
  have hep1 := eventPhase_none s0.events s0.nextEventId (post.id.getD "")
    (upsertEventVals post profile1 ile1 now1) now1 h2
  have hout1 : upsertFacebookPost cfg s0 post profile1 ile1 now1 =
      (⟨true, true, false⟩,
       { events := s0.events ++
           [newEventRow s0.nextEventId (post.id.getD "")
             (upsertEventVals post profile1 ile1 now1) now1],
         photos := (processUrls cfg s0.nextEventId [] now1 (upsertPhotoUrls post)
           ⟨0, [], s0.photos, s0.blobs, s0.nextPhotoId, s0.uuidCounter⟩).photos,
         blobs := (processUrls cfg s0.nextEventId [] now1 (upsertPhotoUrls post)
           ⟨0, [], s0.photos, s0.blobs, s0.nextPhotoId, s0.uuidCounter⟩).blobs,
         nextEventId := s0.nextEventId + 1,
         nextPhotoId := (processUrls cfg s0.nextEventId [] now1 (upsertPhotoUrls post)
           ⟨0, [], s0.photos, s0.blobs, s0.nextPhotoId, s0.uuidCounter⟩).nextPhotoId,
         uuidCounter := (processUrls cfg s0.nextEventId [] now1 (upsertPhotoUrls post)
           ⟨0, [], s0.photos, s0.blobs, s0.nextPhotoId, s0.uuidCounter⟩).uuid }) := by
    rw [upsert_not_falsy cfg s0 post profile1 ile1 now1 h1]
    dsimp only
    rw [hep1]
    dsimp only
    simp only [photoPhase, hfilter0, buildBySource, orphanPass, Bool.not_true]
  have hlook2 : eventLookup (s0.events ++
      [newEventRow s0.nextEventId (post.id.getD "")
        (upsertEventVals post profile1 ile1 now1) now1]) (post.id.getD "") =
      some (newEventRow s0.nextEventId (post.id.getD "")
        (upsertEventVals post profile1 ile1 now1) now1) := by
    unfold eventLookup at h2 ⊢
    rw [List.find?_append, h2]
    simp [newEventRow]
  have hep2 := eventPhase_some _ (s0.nextEventId + 1) (post.id.getD "")
    (upsertEventVals post profile2 ile2 now2) now2 _ hlook2
  rw [hout1]
  refine ⟨rfl, ?_, ?_, ?_⟩
  · rw [upsert_not_falsy cfg _ post profile2 ile2 now2 h1]
    dsimp only
    rw [hep2]
    rfl
  · rw [upsert_not_falsy cfg _ post profile2 ile2 now2 h1]
    dsimp only
    rw [hep2]
    dsimp only
    exact List.length_map _ _
  · rw [upsert_not_falsy cfg _ post profile2 ile2 now2 h1]
    dsimp only
    rw [hep2]
    dsimp only
    have hid : (newEventRow s0.nextEventId (post.id.getD "")
        (upsertEventVals post profile1 ile1 now1) now1).id = s0.nextEventId := rfl
    rw [hid]
    set P := processUrls cfg s0.nextEventId [] now1 (upsertPhotoUrls post)
      ⟨0, [], s0.photos, s0.blobs, s0.nextPhotoId, s0.uuidCounter⟩ with hP
    simp only [photoPhase]
    have hcov : ∀ u, u ∈ upsertPhotoUrls post → ¬(u == "") = true →
        (getAssoc (buildBySource (P.photos.filter
            (fun p => p.event_id == s0.nextEventId)) [])
          (normalizeSourceUrl u)).isSome = true := by
      intro u hu hne
      obtain ⟨r', hr', hev', hsrc'⟩ := processUrls_covers cfg s0.nextEventId now1
        (upsertPhotoUrls post) ⟨0, [], s0.photos, s0.blobs, s0.nextPhotoId, s0.uuidCounter⟩
        u hu hne
      rw [← hP] at hr'
      apply getAssoc_buildBySource_isSome
      left
      have hub : (u == "") = false := by simpa using hne
      refine ⟨r', List.mem_filter.mpr ⟨hr', by simp [hev']⟩, ?_, ?_⟩
      · simp [truthyStr, hsrc', hub]
      · rw [hsrc']
        rfl
    have hlen := processUrls_no_insert cfg s0.nextEventId
      (buildBySource (P.photos.filter (fun p => p.event_id == s0.nextEventId)) []) now2
      (upsertPhotoUrls post) hcov ⟨0, [], P.photos, P.blobs, P.nextPhotoId, P.uuid⟩
    have hseenhyp : ∀ p, p ∈ P.photos.filter (fun p => p.event_id == s0.nextEventId) →
        truthyStr p.original_source_url = true →
        ((processUrls cfg s0.nextEventId
            (buildBySource (P.photos.filter (fun p => p.event_id == s0.nextEventId)) [])
            now2 (upsertPhotoUrls post)
            ⟨0, [], P.photos, P.blobs, P.nextPhotoId, P.uuid⟩).seen.contains
          (normalizeSourceUrl (p.original_source_url.getD ""))) = true := by
      intro p hp ht
      obtain ⟨hp1, hp2⟩ := List.mem_filter.mp hp
      rw [hP] at hp1
      rcases processUrls_photos_from cfg s0.nextEventId [] now1 (upsertPhotoUrls post)
        ⟨0, [], s0.photos, s0.blobs, s0.nextPhotoId, s0.uuidCounter⟩ p hp1 with
        ⟨r, hr, _, hev, _⟩ | ⟨u, hu, hne, hev, hsrc⟩
      · exact absurd (by rw [← hev]; exact beq_iff_eq.mp hp2 : r.event_id = s0.nextEventId)
          (h3 r hr)
      · have hseen := processUrls_seen_of_mem cfg s0.nextEventId
          (buildBySource (P.photos.filter (fun p => p.event_id == s0.nextEventId)) []) now2
          (upsertPhotoUrls post) ⟨0, [], P.photos, P.blobs, P.nextPhotoId, P.uuid⟩ u hu hne
        rw [hsrc]
        exact List.elem_iff.mpr hseen
    rw [orphanPass_eq_of_seen _ _ _ hseenhyp, hlen.1]

/-- Witness for C1: reconciling a concrete fresh post (id "w1", one
attachment photo) twice against the empty store inserts once, then
updates, with unchanged row counts. -/
theorem upsertFacebookPost_idempotent_witness :
    (jsFalsy c1post.id = false ∧
     eventLookup (({} : Store)).events (c1post.id.getD "") = none ∧
     (∀ p, p ∈ (({} : Store)).photos → ¬ p.event_id = (({} : Store)).nextEventId)) ∧
    ((upsertFacebookPost {} {} c1post none false "t1").1 = ⟨true, true, false⟩ ∧
     (upsertFacebookPost {} (upsertFacebookPost {} {} c1post none false "t1").2 c1post
       none false "t2").1 = ⟨true, false, true⟩ ∧
     (upsertFacebookPost {} (upsertFacebookPost {} {} c1post none false "t1").2 c1post
       none false "t2").2.events.length =
       (upsertFacebookPost {} {} c1post none false "t1").2.events.length ∧
     (upsertFacebookPost {} (upsertFacebookPost {} {} c1post none false "t1").2 c1post
       none false "t2").2.photos.length =
       (upsertFacebookPost {} {} c1post none false "t1").2.photos.length) :=
  ⟨⟨by decide, rfl, by simp⟩,
   upsertFacebookPost_idempotent {} {} c1post none none false false "t1" "t2"
     (by decide) rfl (by simp)⟩

end TimelineSync
